import Mathlib

/-!
Verification development for the go-ObuDiff cell-diff extraction and
multi-mode rendering pipeline.

Strings are modelled as lists of characters (`Str`).  The marker grammar
regular expression of `main.go`
(`^\s*\[\-(.*?)\-\]\{\+(.*?)\+\}\s*$`, compiled with Go `regexp`, which
uses leftmost-first submatch semantics and in which `.` does not match a
newline and `\s` is the class tab, newline, form feed, carriage return,
space) is embedded as an executable matcher: the greedy leading `\s*`
becomes `dropWhile`, the two lazy captures become left-to-right scans
that close at the first position where the rest of the pattern matches.

The external diff engine (go-diff `DiffMain` plus `DiffCleanupSemantic`)
is out of scope per the spec and appears as a parameter producing an
edit script.  Output sinks are modelled by a success predicate on the
write attempt index, so that write failures and the error plumbing
of the source can be stated faithfully.
-/

abbrev Str := List Char

/-- The Go `\s` character class: `[\t\n\f\r ]`. -/
def isWsChar (c : Char) : Bool :=
  c == ' ' || c == '\t' || c == '\n' || c == '\x0c' || c == '\r'

/-- After a candidate `+`, the rest must be `}` followed by `\s*$`. -/
def newCloseOk : Str → Bool
  | [] => false
  | x :: r => x == '\x7d' && r.all isWsChar

/-- Lazy capture for `NEW`: scan left to right, closing at the first
position where `\+\}\s*$` matches the remainder; `.` excludes `\n`. -/
def matchNew : Str → Option Str
  | [] => none
  | c :: rest =>
    cond (c == '+' && newCloseOk rest) (some [])
      (cond (c == '\n') none ((matchNew rest).map (fun nw => c :: nw)))

/-- After a candidate `-`, the rest must be `]{+` and then a `NEW` match. -/
def oldCloseAt : Str → Option Str
  | x :: y :: z :: r => cond (x == ']' && y == '\x7b' && z == '+') (matchNew r) none
  | _ => none

/-- Lazy capture for `OLD`: scan left to right, closing at the first
position where `\-\]\{\+(.*?)\+\}\s*$` matches the remainder. -/
def matchOld : Str → Option (Str × Str)
  | [] => none
  | c :: rest =>
    match cond (c == '-') (oldCloseAt rest) none with
    | some nw => some ([], nw)
    | none =>
      cond (c == '\n') none ((matchOld rest).map (fun p => (c :: p.1, p.2)))

/-- `diffRegex.FindStringSubmatch`: the whole anchored pattern
`^\s*\[\-(.*?)\-\]\{\+(.*?)\+\}\s*$`, returning the two captures. -/
def diffRegexFind (s : Str) : Option (Str × Str) :=
  match s.dropWhile isWsChar with
  | '[' :: '-' :: rest => matchOld rest
  | _ => none

/-- Whether `pat` occurs as a contiguous subsequence of the string. -/
def containsSeq (pat : Str) : Str → Bool
  | [] => pat.isPrefixOf []
  | c :: rest => pat.isPrefixOf (c :: rest) || containsSeq pat rest

/-- No newline character occurs in the string (Go regexp `.` never
matches a newline). -/
def noNewline (s : Str) : Bool := s.all (fun c => !(c == '\n'))

/-- Leading and trailing `\s*` removed, as the regex anchors see it. -/
def trimWs (s : Str) : Str :=
  (((s.dropWhile isWsChar).reverse.dropWhile isWsChar)).reverse

inductive DiffOp where
  | equal
  | delete
  | insert
deriving DecidableEq

/-- One segment of an edit script (`diffmatchpatch.Diff`). -/
structure Diff where
  op : DiffOp
  text : Str
deriving DecidableEq

/-- The external diff engine collaborator: `DiffMain` followed by
`DiffCleanupSemantic`, abstracted behind its interface. -/
abbrev DiffEngine := Str → Str → List Diff

/-- `parseDiffCell`: match the cell against the marker grammar and, on
success, hand the two captures to the diff engine. -/
def parseDiffCell (engine : DiffEngine) (cell : Str) : Option (List Diff) :=
  match diffRegexFind cell with
  | some p => some (engine p.1 p.2)
  | none => none

/-- `formatDiffsToText`: marker notation.  Equal segments pass through
verbatim, deletions render as `[-text-]`, insertions as `{+text+}`,
concatenated in script order. -/
def formatDiffsToText : List Diff → Str
  | [] => []
  | d :: rest =>
    (match d.op with
     | DiffOp.equal => d.text
     | DiffOp.delete => "[-".data ++ d.text ++ "-]".data
     | DiffOp.insert => "\x7b+".data ++ d.text ++ "+\x7d".data) ++ formatDiffsToText rest

/-- One character of Go `html.EscapeString` (a single-pass replacer for
the five markup-significant characters). -/
def escapeChar (c : Char) : Str :=
  if c == '&' then "&amp;".data
  else if c == '\x27' then "&#39;".data
  else if c == '<' then "&lt;".data
  else if c == '>' then "&gt;".data
  else if c == '\x22' then "&#34;".data
  else [c]

/-- Go `html.EscapeString`. -/
def escapeHTML (s : Str) : Str := (s.map escapeChar).flatten

/-- `formatDiffsToHTML`: markup notation.  The text of every segment
is escaped before wrapping; deletions wrap in a `del` element, insertions
in an `ins` element, equal segments are bare. -/
def formatDiffsToHTML : List Diff → Str
  | [] => []
  | d :: rest =>
    (match d.op with
     | DiffOp.equal => escapeHTML d.text
     | DiffOp.delete => "<del class=\x22diff-del\x22>".data ++ escapeHTML d.text ++ "</del>".data
     | DiffOp.insert => "<ins class=\x22diff-add\x22>".data ++ escapeHTML d.text ++ "</ins>".data)
      ++ formatDiffsToHTML rest

/-- The per-cell transform of full CSV mode (`processCSVAsFull` body):
a matched cell is replaced by the rendered edit script, any other cell
passes through unchanged. -/
def transformCellText (engine : DiffEngine) (cell : Str) : Str :=
  match parseDiffCell engine cell with
  | some diffs => formatDiffsToText diffs
  | none => cell

/-- The per-cell transform of full HTML mode (`processHTMLAsTable`
body): a matched cell is replaced by the rendered edit script, any
other cell is markup-escaped. -/
def transformCellHTML (engine : DiffEngine) (cell : Str) : Str :=
  match parseDiffCell engine cell with
  | some diffs => formatDiffsToHTML diffs
  | none => escapeHTML cell

/-- Decimal rendering of a line or column number (`fmt.Sprintf "%d"`). -/
def natStr (n : Nat) : Str := (Nat.repr n).data

/-- Column descriptor of CSV list mode (`processCSVAsList`): bare
1-based index, or `index:name` when the header mapping covers the
0-based column index. -/
def csvColDesc (headers : Option (List Str)) (colNum : Nat) : Str :=
  match headers with
  | some hs =>
    if colNum < hs.length then natStr (colNum + 1) ++ ":".data ++ hs.getD colNum []
    else natStr (colNum + 1)
  | none => natStr (colNum + 1)

/-- Column descriptor of HTML list mode (`writeHTMLDiffLine`), taking
the 1-based column: `Col index`, or `Col index:name` with the header
name markup-escaped when the mapping covers the column. -/
def htmlColDesc (headers : Option (List Str)) (col : Nat) : Str :=
  match headers with
  | some hs =>
    if col - 1 < hs.length then
      "Col ".data ++ natStr col ++ ":".data ++ escapeHTML (hs.getD (col - 1) [])
    else "Col ".data ++ natStr col
  | none => "Col ".data ++ natStr col

/-- An output sink: whether the n-th write attempt succeeds.  A real
file accepts every write; the `mockErrorWriter` of the repository
fails every write. -/
abbrev Sink := Nat → Bool

/-- A sink on which every write succeeds. -/
def okSink : Sink := fun _ => true

/-- A sink on which every write fails (`mockErrorWriter`). -/
def failSink : Sink := fun _ => false

/-- State of a record-oriented CSV writer: attempt counter and the
records successfully written. -/
structure CsvW where
  idx : Nat
  rows : List (List Str)
deriving DecidableEq

/-- `csv.Writer.Write`: one record write attempt against the sink. -/
def csvWrite (sink : Sink) (w : CsvW) (r : List Str) : CsvW × Bool :=
  cond (sink w.idx) (⟨w.idx + 1, w.rows ++ [r]⟩, true) (⟨w.idx + 1, w.rows⟩, false)

/-- State of a plain text writer: attempt counter and the strings
successfully written, in order. -/
structure HtmlW where
  idx : Nat
  out : List Str
deriving DecidableEq

/-- `io.WriteString`: one string write attempt against the sink. -/
def htmlWrite (sink : Sink) (w : HtmlW) (s : Str) : HtmlW × Bool :=
  cond (sink w.idx) (⟨w.idx + 1, w.out ++ [s]⟩, true) (⟨w.idx + 1, w.out⟩, false)

/-- The error outcomes a processing run can surface. -/
inductive ProcError where
  | headerWrite
  | readFail (line : Nat)
  | rowWrite (line : Nat)
  | noticeWrite
deriving DecidableEq

/-- Full CSV mode main loop (`processCSVAsFull`): cap check before each
read, then read, count, transform the record cell-wise, write; a write
failure aborts with an error; returns the writer state, the final line
count and the error outcome. -/
def csvFullLoop (engine : DiffEngine) (sink : Sink) (limit : Nat) :
    List (List Str) → Bool → Nat → CsvW → CsvW × Nat × Option ProcError
  | records, readErr, lineCount, w =>
    if 0 < limit ∧ limit ≤ lineCount then (w, lineCount, none)
    else
      match records with
      | [] =>
        cond readErr (w, lineCount, some (ProcError.readFail (lineCount + 1)))
          (w, lineCount, none)
      | record :: rest =>
        let outputRecord := record.map (transformCellText engine)
        let r := csvWrite sink w outputRecord
        cond r.2 (csvFullLoop engine sink limit rest readErr (lineCount + 1) r.1)
          (r.1, lineCount + 1, some (ProcError.rowWrite (lineCount + 1)))

/-- `processCSVAsFull`: optional header row, then the main loop. -/
def processCSVAsFull (engine : DiffEngine) (sink : Sink) (limit : Nat)
    (headers : Option (List Str)) (records : List (List Str)) (readErr : Bool) :
    CsvW × Nat × Option ProcError :=
  match headers with
  | some hs =>
    let r := csvWrite sink ⟨0, []⟩ hs
    cond r.2 (csvFullLoop engine sink limit records readErr 0 r.1)
      (r.1, 0, some ProcError.headerWrite)
  | none => csvFullLoop engine sink limit records readErr 0 ⟨0, []⟩

/-- Inner cell loop of `processCSVAsList`: for each matched cell emit a
`(line, column descriptor, rendered diff)` record; a write failure
aborts with an error. -/
def csvListRow (engine : DiffEngine) (sink : Sink) (headers : Option (List Str))
    (lineCount : Nat) : List Str → Nat → CsvW → CsvW × Option ProcError
  | [], _, w => (w, none)
  | cell :: rest, colNum, w =>
    match parseDiffCell engine cell with
    | some diffs =>
      let row := [natStr lineCount, csvColDesc headers colNum, formatDiffsToText diffs]
      let r := csvWrite sink w row
      cond r.2 (csvListRow engine sink headers lineCount rest (colNum + 1) r.1)
        (r.1, some (ProcError.rowWrite lineCount))
    | none => csvListRow engine sink headers lineCount rest (colNum + 1) w

/-- Diff-list CSV mode main loop (`processCSVAsList`). -/
def csvListLoop (engine : DiffEngine) (sink : Sink) (limit : Nat)
    (headers : Option (List Str)) :
    List (List Str) → Bool → Nat → CsvW → CsvW × Nat × Option ProcError
  | records, readErr, lineCount, w =>
    if 0 < limit ∧ limit ≤ lineCount then (w, lineCount, none)
    else
      match records with
      | [] =>
        cond readErr (w, lineCount, some (ProcError.readFail (lineCount + 1)))
          (w, lineCount, none)
      | record :: rest =>
        let rr := csvListRow engine sink headers (lineCount + 1) record 0 w
        match rr.2 with
        | some e => (rr.1, lineCount + 1, some e)
        | none => csvListLoop engine sink limit headers rest readErr (lineCount + 1) rr.1

/-- `processCSVAsList`: fixed `Line,Column,DiffValue` header row, then
the main loop. -/
def processCSVAsList (engine : DiffEngine) (sink : Sink) (limit : Nat)
    (headers : Option (List Str)) (records : List (List Str)) (readErr : Bool) :
    CsvW × Nat × Option ProcError :=
  let r := csvWrite sink ⟨0, []⟩ ["Line".data, "Column".data, "DiffValue".data]
  cond r.2 (csvListLoop engine sink limit headers records readErr 0 r.1)
    (r.1, 0, some ProcError.headerWrite)

/-- The font family with `<` and `>` stripped (two `ReplaceAll` calls). -/
def stripAngles (s : Str) : Str := s.filter (fun c => !(c == '<') && !(c == '>'))

/-- First write of the HTML list preamble, up to the style block. -/
def htmlListPre : Str :=
  "<!DOCTYPE html>\n<html lang=\x22ja\x22>\n<head>\n    <meta charset=\x22UTF-8\x22>\n    <title>差分比較結果 (不一致リスト)</title>\n    <style>\n".data

/-- The interpolated `body { font-family: ...; }` style line. -/
def bodyFontLine (safeFontFamily : Str) : Str :=
  "        body \x7b font-family: ".data ++ safeFontFamily ++ "; \x7d\n".data

/-- Remainder of the HTML list preamble: style rules, head close, body
open and title. -/
def htmlListCss : Str :=
  "\n        .diff-del \x7b color: #d32f2f; text-decoration: line-through; background-color: #ffebee; \x7d\n        .diff-add \x7b color: #388e3c; font-weight: bold; text-decoration: none; background-color: #e8f5e9; \x7d\n        .diff-line \x7b padding: 8px 12px; border-bottom: 1px solid #eee; line-height: 1.5; background-color: #f9f9f9; \x7d\n        .diff-line:nth-child(even) \x7b background-color: #fff; \x7d\n        .diff-line .location \x7b font-weight: bold; color: #555; margin-right: 15px; display: inline-block; min-width: 150px; \x7d\n        .no-diff \x7b font-size: 1.2em; color: #777; padding: 20px; \x7d\n    </style>\n</head>\n<body>\n    <h1>差分比較結果 (不一致のみ)</h1>\n".data

/-- The `no differences found` notice of HTML list mode. -/
def noticeStr : Str :=
  "<p class=\x27no-diff\x27>差分は見つかりませんでした。</p>\n".data

/-- The HTML list postamble. -/
def footerListStr : Str := "</body>\n</html>\n".data

/-- `writeHTMLHeaderList`: three writes whose errors are ignored. -/
def writeHTMLHeaderList (sink : Sink) (w : HtmlW) (fontFamily : Str) : HtmlW :=
  let safe := stripAngles fontFamily
  let w1 := (htmlWrite sink w htmlListPre).1
  let w2 := (htmlWrite sink w1 (bodyFontLine safe)).1
  (htmlWrite sink w2 htmlListCss).1

/-- The location span of one diff entry. -/
def locLine (line : Nat) (colStr : Str) : Str :=
  "    <span class=\x27location\x27>(Line ".data ++ natStr line ++ ", ".data
    ++ colStr ++ ")</span>\n".data

/-- The value span of one diff entry. -/
def valLine (htmlDiff : Str) : Str :=
  "    <span class=\x27value\x27>".data ++ htmlDiff ++ "</span>\n".data

/-- `writeHTMLDiffLine`: four writes whose errors are ignored. -/
def writeHTMLDiffLine (sink : Sink) (w : HtmlW) (line col : Nat) (htmlDiff : Str)
    (headers : Option (List Str)) : HtmlW :=
  let w1 := (htmlWrite sink w "<div class=\x27diff-line\x27>\n".data).1
  let w2 := (htmlWrite sink w1 (locLine line (htmlColDesc headers col))).1
  let w3 := (htmlWrite sink w2 (valLine htmlDiff)).1
  (htmlWrite sink w3 "</div>\n".data).1

/-- `writeHTMLFooterList`: one write whose error is ignored. -/
def writeHTMLFooterList (sink : Sink) (w : HtmlW) : HtmlW :=
  (htmlWrite sink w footerListStr).1

/-- Inner cell loop of `processHTMLAsList`: write one diff entry per
matched cell, counting the entries; write errors are ignored. -/
def htmlListRow (engine : DiffEngine) (sink : Sink) (headers : Option (List Str))
    (lineNum : Nat) : List Str → Nat → HtmlW → Nat → HtmlW × Nat
  | [], _, w, diffFound => (w, diffFound)
  | cell :: rest, colNum, w, diffFound =>
    match parseDiffCell engine cell with
    | some diffs =>
      let w2 := writeHTMLDiffLine sink w lineNum (colNum + 1) (formatDiffsToHTML diffs) headers
      htmlListRow engine sink headers lineNum rest (colNum + 1) w2 (diffFound + 1)
    | none => htmlListRow engine sink headers lineNum rest (colNum + 1) w diffFound

/-- Diff-list HTML mode main loop (`processHTMLAsList`): a read error
returns immediately; the line and diff-entry counters are threaded. -/
def htmlListLoop (engine : DiffEngine) (sink : Sink) (limit : Nat)
    (headers : Option (List Str)) :
    List (List Str) → Bool → Nat → Nat → HtmlW → HtmlW × Nat × Nat × Option ProcError
  | records, readErr, lineCount, diffFound, w =>
    if 0 < limit ∧ limit ≤ lineCount then (w, lineCount, diffFound, none)
    else
      match records with
      | [] =>
        cond readErr (w, lineCount, diffFound, some (ProcError.readFail (lineCount + 1)))
          (w, lineCount, diffFound, none)
      | record :: rest =>
        let rr := htmlListRow engine sink headers (lineCount + 1) record 0 w diffFound
        htmlListLoop engine sink limit headers rest readErr (lineCount + 1) rr.2 rr.1

/-- `processHTMLAsList`: preamble (errors ignored), main loop (read
errors propagate), then the notice — written through the error-tracking
closure if and only if no entry was emitted — and the footer (error
ignored).  The returned error reflects exactly the local `err`
variable of the source: only the notice write can set it. -/
def processHTMLAsList (engine : DiffEngine) (sink : Sink) (fontFamily : Str)
    (limit : Nat) (headers : Option (List Str)) (records : List (List Str))
    (readErr : Bool) : HtmlW × Nat × Nat × Option ProcError :=
  let w0 := writeHTMLHeaderList sink ⟨0, []⟩ fontFamily
  match htmlListLoop engine sink limit headers records readErr 0 0 w0 with
  | (w, lineCount, diffFound, some e) => (w, lineCount, diffFound, some e)
  | (w, lineCount, diffFound, none) =>
    if diffFound = 0 then
      let r := htmlWrite sink w noticeStr
      let w2 := writeHTMLFooterList sink r.1
      (w2, lineCount, diffFound, cond r.2 none (some ProcError.noticeWrite))
    else
      (writeHTMLFooterList sink w, lineCount, diffFound, none)

/-- First write of the HTML table preamble, up to the style block. -/
def htmlTablePre : Str :=
  "<!DOCTYPE html>\n<html lang=\x22ja\x22>\n<head>\n    <meta charset=\x22UTF-8\x22>\n    <title>差分比較結果 (全データ)</title>\n    <style>\n".data

/-- Remainder of the HTML table preamble: style rules, head close, body
open, title and table open. -/
def htmlTableCss : Str :=
  "\n        .diff-del \x7b color: #d32f2f; text-decoration: line-through; background-color: #ffebee; \x7d\n        .diff-add \x7b color: #388e3c; font-weight: bold; text-decoration: none; background-color: #e8f5e9; \x7d\n        table \x7b border-collapse: collapse; margin: 20px 0; font-size: 0.9em; \x7d\n        th, td \x7b border: 1px solid #ccc; padding: 8px 12px; vertical-align: top; text-align: left; \x7d\n        thead th \x7b background-color: #f0f0f0; \x7d\n        tbody tr:nth-child(odd) \x7b background-color: #f9f9f9; \x7d\n    </style>\n</head>\n<body>\n    <h1>差分比較結果 (全データ)</h1>\n    <table>\n".data

/-- The `<th>` writes of the optional `<thead>` block. -/
def writeTheadCells (sink : Sink) : HtmlW → List Str → HtmlW
  | w, [] => w
  | w, h :: rest =>
    writeTheadCells sink (htmlWrite sink w ("    <th>".data ++ escapeHTML h ++ "</th>\n".data)).1 rest

/-- `writeHTMLHeaderTable`: preamble writes plus the optional `<thead>`
block; all errors ignored. -/
def writeHTMLHeaderTable (sink : Sink) (w : HtmlW) (fontFamily : Str)
    (headers : Option (List Str)) : HtmlW :=
  let safe := stripAngles fontFamily
  let w1 := (htmlWrite sink w htmlTablePre).1
  let w2 := (htmlWrite sink w1 (bodyFontLine safe)).1
  let w3 := (htmlWrite sink w2 htmlTableCss).1
  match headers with
  | some hs =>
    let w4 := (htmlWrite sink w3 "<thead>\n<tr>\n".data).1
    let w5 := writeTheadCells sink w4 hs
    (htmlWrite sink w5 "</tr>\n</thead>\n".data).1
  | none => w3

/-- The `<td>` writes of one table data row. -/
def writeTdCells (sink : Sink) : HtmlW → List Str → HtmlW
  | w, [] => w
  | w, c :: rest =>
    writeTdCells sink (htmlWrite sink w ("    <td>".data ++ c ++ "</td>\n".data)).1 rest

/-- `writeHTMLDataRowTable`: row open, cells, row close; errors ignored. -/
def writeHTMLDataRowTable (sink : Sink) (w : HtmlW) (cells : List Str) : HtmlW :=
  let w1 := (htmlWrite sink w "<tr>\n".data).1
  let w2 := writeTdCells sink w1 cells
  (htmlWrite sink w2 "</tr>\n".data).1

/-- Full HTML mode main loop (`processHTMLAsTable`). -/
def htmlTableLoop (engine : DiffEngine) (sink : Sink) (limit : Nat) :
    List (List Str) → Bool → Nat → HtmlW → HtmlW × Nat × Option ProcError
  | records, readErr, lineCount, w =>
    if 0 < limit ∧ limit ≤ lineCount then (w, lineCount, none)
    else
      match records with
      | [] =>
        cond readErr (w, lineCount, some (ProcError.readFail (lineCount + 1)))
          (w, lineCount, none)
      | record :: rest =>
        let outputCells := record.map (transformCellHTML engine)
        let w2 := writeHTMLDataRowTable sink w outputCells
        htmlTableLoop engine sink limit rest readErr (lineCount + 1) w2

/-- `processHTMLAsTable`: preamble, `<tbody>` open, main loop (read
errors propagate), `<tbody>` close and postamble; only read errors are
surfaced, every write error is ignored. -/
def processHTMLAsTable (engine : DiffEngine) (sink : Sink) (fontFamily : Str)
    (limit : Nat) (headers : Option (List Str)) (records : List (List Str))
    (readErr : Bool) : HtmlW × Nat × Option ProcError :=
  let w0 := writeHTMLHeaderTable sink ⟨0, []⟩ fontFamily headers
  let w1 := (htmlWrite sink w0 "<tbody>\n".data).1
  match htmlTableLoop engine sink limit records readErr 0 w1 with
  | (w, lineCount, some e) => (w, lineCount, some e)
  | (w, lineCount, none) =>
    let w2 := (htmlWrite sink w "</tbody>\n".data).1
    ((htmlWrite sink w2 "</table>\n</body>\n</html>\n".data).1, lineCount, none)

/-- Marker-notation rendering of a single segment, as
`formatDiffsToText` emits it. -/
def renderMarkerSeg (d : Diff) : Str :=
  match d.op with
  | DiffOp.equal => d.text
  | DiffOp.delete => "[-".data ++ d.text ++ "-]".data
  | DiffOp.insert => "\x7b+".data ++ d.text ++ "+\x7d".data

/-- Strip a two-character opening delimiter and a two-character closing
delimiter from a rendered segment, recovering the delimited text. -/
def unwrapWrapped (s : Str) : Str := (s.drop 2).take (s.length - 4)

/-- Re-extraction of `OLD` from the marker notation: equal segments
verbatim plus the bracket-delimited text of each rendered deletion. -/
def markerExtractOld : List Diff → Str
  | [] => []
  | d :: rest =>
    (match d.op with
     | DiffOp.equal => renderMarkerSeg d
     | DiffOp.delete => unwrapWrapped (renderMarkerSeg d)
     | DiffOp.insert => []) ++ markerExtractOld rest

/-- Re-extraction of `NEW` from the marker notation: equal segments
verbatim plus the brace-delimited text of each rendered insertion. -/
def markerExtractNew : List Diff → Str
  | [] => []
  | d :: rest =>
    (match d.op with
     | DiffOp.equal => renderMarkerSeg d
     | DiffOp.delete => []
     | DiffOp.insert => unwrapWrapped (renderMarkerSeg d)) ++ markerExtractNew rest

/-- The diff engine contract, old side: concatenating the texts of
equal and delete segments reconstructs the old string. -/
def oldOfScript : List Diff → Str
  | [] => []
  | d :: rest =>
    (match d.op with
     | DiffOp.equal => d.text
     | DiffOp.delete => d.text
     | DiffOp.insert => []) ++ oldOfScript rest

/-- The diff engine contract, new side: concatenating the texts of
equal and insert segments reconstructs the new string. -/
def newOfScript : List Diff → Str
  | [] => []
  | d :: rest =>
    (match d.op with
     | DiffOp.equal => d.text
     | DiffOp.delete => []
     | DiffOp.insert => d.text) ++ newOfScript rest

/-- Markup-notation rendering of a single segment, following the words
of the spec: text escaped for markup before wrapping; equal bare, delete in a
deletion-styled inline element, insert in an insertion-styled one. -/
def markupSegSpec (d : Diff) : Str :=
  match d.op with
  | DiffOp.equal => escapeHTML d.text
  | DiffOp.delete => "<del class=\x22diff-del\x22>".data ++ escapeHTML d.text ++ "</del>".data
  | DiffOp.insert => "<ins class=\x22diff-add\x22>".data ++ escapeHTML d.text ++ "</ins>".data

/-- The number of records a run reads under line cap `limit` from a
stream of `total` records: `min limit total` for a positive cap, all
records otherwise. -/
def capCount (limit total : Nat) : Nat := if 0 < limit then min limit total else total

/-- A concrete engine satisfying the contract, used to instantiate
witnesses: whole-string delete followed by whole-string insert. -/
def engineSample : DiffEngine := fun o n => [⟨DiffOp.delete, o⟩, ⟨DiffOp.insert, n⟩]

theorem isWsChar_plus : isWsChar '+' = false := by decide

theorem isWsChar_lbracket : isWsChar '[' = false := by decide

theorem noNewline_cons (c : Char) (t : Str) (h : noNewline (c :: t) = true) :
    (c == '\n') = false ∧ noNewline t = true := by
  simp only [noNewline, List.all_cons, Bool.and_eq_true] at h
  refine ⟨?_, h.2⟩
  cases h2 : (c == '\n') with
  | true => rw [h2] at h; exact absurd h.1 (by simp)
  | false => rfl

theorem all_append_marker_false (t ws : Str) :
    (t ++ '+' :: '\x7d' :: ws).all isWsChar = false := by
  simp [List.all_append, List.all_cons, isWsChar_plus]

theorem newCloseOk_append_marker (rest ws : Str) :
    newCloseOk (rest ++ '+' :: '\x7d' :: ws) = false := by
  cases rest with
  | nil =>
    have h : ('+' == '\x7d') = false := by decide
    simp [newCloseOk, h]
  | cons x t =>
    simp only [List.cons_append, newCloseOk]
    rw [all_append_marker_false]
    simp

theorem matchNew_build (nw ws : Str) (hnl : noNewline nw = true)
    (hws : ws.all isWsChar = true) :
    matchNew (nw ++ '+' :: '\x7d' :: ws) = some nw := by
  induction nw with
  | nil =>
    simp only [List.nil_append, matchNew, newCloseOk]
    rw [hws]
    simp
  | cons c rest ih =>
    obtain ⟨h1, h2⟩ := noNewline_cons c rest hnl
    simp only [List.cons_append, matchNew, List.append_eq, newCloseOk_append_marker,
      Bool.and_false, cond_false, h1, ih h2, Option.map_some']

theorem oldCloseAt_not_rbracket (x : Char) (l : Str) (hx : (x == ']') = false) :
    oldCloseAt (x :: l) = none := by
  cases l with
  | nil => rfl
  | cons y l2 =>
    cases l2 with
    | nil => rfl
    | cons z r => simp [oldCloseAt, hx]

theorem containsSeq_cons (pat c rest) (h : containsSeq pat (c :: rest) = false) :
    pat.isPrefixOf (c :: rest) = false ∧ containsSeq pat rest = false := by
  simp only [containsSeq, Bool.or_eq_false_iff] at h
  exact h

theorem matchOld_build (od nw ws : Str) (hnlo : noNewline od = true)
    (hseq : containsSeq "-]".data od = false) (hnln : noNewline nw = true)
    (hws : ws.all isWsChar = true) :
    matchOld (od ++ '-' :: ']' :: '\x7b' :: '+' :: (nw ++ '+' :: '\x7d' :: ws))
      = some (od, nw) := by
  induction od with
  | nil =>
    simp [matchOld, oldCloseAt, matchNew_build nw ws hnln hws]
  | cons c od2 ih =>
    obtain ⟨h1, h2⟩ := noNewline_cons c od2 hnlo
    obtain ⟨h3, h4⟩ := containsSeq_cons "-]".data c od2 hseq
    have hclose : cond (c == '-')
        (oldCloseAt (od2 ++ '-' :: ']' :: '\x7b' :: '+' :: (nw ++ '+' :: '\x7d' :: ws)))
        none = none := by
      cases h5 : (c == '-') with
      | false => simp
      | true =>
        rw [cond_true]
        cases od2 with
        | nil =>
          exact oldCloseAt_not_rbracket '-' _ (by decide)
        | cons x t =>
          cases h6 : (x == ']') with
          | false => rw [List.cons_append]; exact oldCloseAt_not_rbracket x _ h6
          | true =>
            exfalso
            have hc : c = '-' := by simpa using h5
            have hx : x = ']' := by simpa using h6
            subst hc
            subst hx
            simp [List.isPrefixOf] at h3
    simp only [List.cons_append, matchOld, List.append_eq, hclose, h1, cond_false,
      ih h2 h4, Option.map_some']

theorem dropWhile_append_all (p : Char → Bool) (a b : Str) (h : a.all p = true) :
    (a ++ b).dropWhile p = b.dropWhile p := by
  induction a with
  | nil => rfl
  | cons x t ih =>
    simp only [List.all_cons, Bool.and_eq_true] at h
    simp [List.dropWhile_cons, h.1, ih h.2]

theorem diffRegexFind_build (ws1 ws2 old nw : Str) (h1 : ws1.all isWsChar = true)
    (h2 : ws2.all isWsChar = true) (h3 : containsSeq "-]".data old = false)
    (h4 : noNewline old = true) (h5 : noNewline nw = true) :
    diffRegexFind (ws1 ++ "[-".data ++ old ++ "-]\x7b+".data ++ nw ++ "+\x7d".data ++ ws2)
      = some (old, nw) := by
  simp only [List.append_assoc]
  show diffRegexFind
      (ws1 ++ ('[' :: '-' :: (old ++ '-' :: ']' :: '\x7b' :: '+' :: (nw ++ '+' :: '\x7d' :: ws2))))
      = some (old, nw)
  have hdrop : (ws1 ++ ('[' :: '-' ::
        (old ++ '-' :: ']' :: '\x7b' :: '+' :: (nw ++ '+' :: '\x7d' :: ws2)))).dropWhile isWsChar
      = '[' :: '-' :: (old ++ '-' :: ']' :: '\x7b' :: '+' :: (nw ++ '+' :: '\x7d' :: ws2)) := by
    rw [dropWhile_append_all isWsChar ws1 _ h1]
    simp [List.dropWhile_cons, isWsChar_lbracket]
  simp only [diffRegexFind, hdrop]
  exact matchOld_build old nw ws2 h4 h3 h5 h2

theorem matchNew_sound (l : Str) : ∀ nw, matchNew l = some nw →
    (∃ ws, l = nw ++ '+' :: '\x7d' :: ws ∧ ws.all isWsChar = true) ∧ noNewline nw = true := by
  induction l with
  | nil => intro nw h; simp [matchNew] at h
  | cons c rest ih =>
    intro nw h
    simp only [matchNew] at h
    cases h1 : (c == '+' && newCloseOk rest) with
    | true =>
      rw [h1, cond_true] at h
      have hnw : nw = [] := by simpa using h.symm
      subst hnw
      simp only [Bool.and_eq_true] at h1
      have hc : c = '+' := by simpa using h1.1
      subst hc
      cases rest with
      | nil => simp [newCloseOk] at h1
      | cons x r =>
        simp only [newCloseOk, Bool.and_eq_true] at h1
        have hx : x = '\x7d' := by simpa using h1.2.1
        subst hx
        exact ⟨⟨r, by simp, h1.2.2⟩, by simp [noNewline]⟩
    | false =>
      rw [h1, cond_false] at h
      cases h2 : (c == '\n') with
      | true => rw [h2, cond_true] at h; exact absurd h (by simp)
      | false =>
        rw [h2, cond_false] at h
        cases h3 : matchNew rest with
        | none => rw [h3] at h; simp at h
        | some nw2 =>
          rw [h3] at h
          simp only [Option.map_some'] at h
          have hnw : nw = c :: nw2 := by simpa using h.symm
          subst hnw
          obtain ⟨⟨ws, hl, hws⟩, hnl⟩ := ih nw2 h3
          refine ⟨⟨ws, ?_, hws⟩, ?_⟩
          · rw [hl]; rfl
          · have h4 : noNewline nw2 = true := hnl
            simp only [noNewline, List.all_cons, Bool.and_eq_true]
            refine ⟨by simp [h2], ?_⟩
            simpa [noNewline] using h4

theorem oldCloseAt_sound (l : Str) (nw : Str) (h : oldCloseAt l = some nw) :
    ∃ r, l = ']' :: '\x7b' :: '+' :: r ∧ matchNew r = some nw := by
  match l with
  | [] => simp [oldCloseAt] at h
  | [x] => simp [oldCloseAt] at h
  | [x, y] => simp [oldCloseAt] at h
  | x :: y :: z :: r =>
    simp only [oldCloseAt] at h
    cases h1 : (x == ']' && y == '\x7b' && z == '+') with
    | false => rw [h1, cond_false] at h; exact absurd h (by simp)
    | true =>
      rw [h1, cond_true] at h
      simp only [Bool.and_eq_true] at h1
      have hx : x = ']' := by simpa using h1.1.1
      have hy : y = '\x7b' := by simpa using h1.1.2
      have hz : z = '+' := by simpa using h1.2
      subst hx
      subst hy
      subst hz
      exact ⟨r, rfl, h⟩

theorem matchOld_sound (l : Str) : ∀ od nw, matchOld l = some (od, nw) →
    (∃ ws, l = od ++ '-' :: ']' :: '\x7b' :: '+' :: (nw ++ '+' :: '\x7d' :: ws)
      ∧ ws.all isWsChar = true)
    ∧ noNewline od = true ∧ noNewline nw = true := by
  induction l with
  | nil => intro od nw h; simp [matchOld] at h
  | cons c rest ih =>
    intro od nw h
    simp only [matchOld] at h
    cases h1 : cond (c == '-') (oldCloseAt rest) none with
    | some nw2 =>
      rw [h1] at h
      simp only [Option.some.injEq, Prod.mk.injEq] at h
      obtain ⟨hod, hnw⟩ := h
      subst hod
      subst hnw
      have hc : (c == '-') = true := by
        cases h4 : (c == '-') with
        | true => rfl
        | false => rw [h4, cond_false] at h1; exact absurd h1 (by simp)
      rw [hc, cond_true] at h1
      have hc2 : c = '-' := by simpa using hc
      subst hc2
      obtain ⟨r, hrest, hmn⟩ := oldCloseAt_sound rest _ h1
      obtain ⟨⟨ws, hr, hws⟩, hnl⟩ := matchNew_sound r _ hmn
      refine ⟨⟨ws, ?_, hws⟩, by simp [noNewline], hnl⟩
      rw [hrest, hr]
      rfl
    | none =>
      rw [h1] at h
      cases h2 : (c == '\n') with
      | true => rw [h2, cond_true] at h; exact absurd h (by simp)
      | false =>
        rw [h2, cond_false] at h
        cases h3 : matchOld rest with
        | none => rw [h3] at h; simp at h
        | some p =>
          rw [h3] at h
          simp only [Option.map_some', Option.some.injEq, Prod.mk.injEq] at h
          obtain ⟨hod, hnw⟩ := h
          obtain ⟨⟨ws, hrest, hws⟩, hnlo, hnln⟩ := ih p.1 p.2 (by rw [h3])
          subst hnw
          refine ⟨⟨ws, ?_, hws⟩, ?_, hnln⟩
          · rw [← hod, hrest]; rfl
          · rw [← hod]
            simp only [noNewline, List.all_cons, Bool.and_eq_true]
            refine ⟨by simp [h2], by simpa [noNewline] using hnlo⟩

theorem trimWs_marker (a b mid : Str) (ha : a.all isWsChar = true)
    (hb : b.all isWsChar = true) :
    trimWs (a ++ ('[' :: (mid ++ ['\x7d'])) ++ b) = '[' :: (mid ++ ['\x7d']) := by
  unfold trimWs
  have e1 : (a ++ ('[' :: (mid ++ ['\x7d'])) ++ b).dropWhile isWsChar
      = ('[' :: (mid ++ ['\x7d'])) ++ b := by
    rw [List.append_assoc, dropWhile_append_all isWsChar a _ ha]
    simp [List.dropWhile_cons, isWsChar_lbracket]
  rw [e1, List.reverse_append,
    dropWhile_append_all isWsChar b.reverse _ (by rw [List.all_reverse]; exact hb)]
  have e2 : ('[' :: (mid ++ ['\x7d'])).reverse = '\x7d' :: ('[' :: mid).reverse := by
    rw [show ('[' :: (mid ++ ['\x7d'])) = ('[' :: mid) ++ ['\x7d'] from rfl, List.reverse_append]
    rfl
  have e3 : isWsChar '\x7d' = false := by decide
  rw [e2]
  simp only [List.dropWhile_cons, e3, Bool.false_eq_true, if_false]
  rw [← e2, List.reverse_reverse]

theorem diffRegexFind_shape (s : Str) (p : Str × Str) (h : diffRegexFind s = some p) :
    ∃ rest, s.dropWhile isWsChar = '[' :: '-' :: rest ∧ matchOld rest = some p := by
  unfold diffRegexFind at h
  split at h
  next rest heq => exact ⟨rest, heq, h⟩
  next heq => exact absurd h (by simp)

theorem diffRegexFind_sound (s od nw : Str) (h : diffRegexFind s = some (od, nw)) :
    trimWs s = "[-".data ++ od ++ "-]\x7b+".data ++ nw ++ "+\x7d".data
    ∧ noNewline od = true ∧ noNewline nw = true := by
  obtain ⟨rest, hd, hm⟩ := diffRegexFind_shape s (od, nw) h
  obtain ⟨⟨ws, hrest, hws⟩, hnlo, hnln⟩ := matchOld_sound rest od nw hm
  refine ⟨?_, hnlo, hnln⟩
  have hs : s = s.takeWhile isWsChar
      ++ ('[' :: ('-' :: (od ++ '-' :: ']' :: '\x7b' :: '+' :: (nw ++ ['+'])) ++ ['\x7d'])) ++ ws := by
    conv_lhs => rw [← List.takeWhile_append_dropWhile isWsChar s]
    rw [hd, hrest]
    simp [List.append_assoc]
  rw [hs, trimWs_marker (s.takeWhile isWsChar) ws _ List.all_takeWhile hws]
  simp [List.append_assoc, List.cons_append, List.singleton_append]

theorem matchOld_exists (od nw ws : Str) (h4 : noNewline od = true) (h5 : noNewline nw = true)
    (h2 : ws.all isWsChar = true) :
    (matchOld (od ++ '-' :: ']' :: '\x7b' :: '+' :: (nw ++ '+' :: '\x7d' :: ws))).isSome = true := by
  induction od with
  | nil =>
    simp [matchOld, oldCloseAt, matchNew_build nw ws h5 h2]
  | cons c od2 ih =>
    obtain ⟨hc, h4b⟩ := noNewline_cons c od2 h4
    rw [List.cons_append]
    simp only [matchOld, List.append_eq]
    cases h6 : cond (c == '-')
        (oldCloseAt (od2 ++ '-' :: ']' :: '\x7b' :: '+' :: (nw ++ '+' :: '\x7d' :: ws)))
        none with
    | some nw2 => simp
    | none =>
      simp only [hc, cond_false, Option.isSome_map']
      exact ih h4b

theorem trim_decomp (s : Str) :
    ∃ a b, s = a ++ trimWs s ++ b ∧ a.all isWsChar = true ∧ b.all isWsChar = true := by
  refine ⟨s.takeWhile isWsChar, ((s.dropWhile isWsChar).reverse.takeWhile isWsChar).reverse,
    ?_, List.all_takeWhile, by rw [List.all_reverse]; exact List.all_takeWhile⟩
  conv_lhs => rw [← List.takeWhile_append_dropWhile isWsChar s]
  rw [List.append_assoc]
  congr 1
  have e : s.dropWhile isWsChar
      = ((s.dropWhile isWsChar).reverse.takeWhile isWsChar
          ++ (s.dropWhile isWsChar).reverse.dropWhile isWsChar).reverse := by
    rw [List.takeWhile_append_dropWhile, List.reverse_reverse]
  conv_lhs => rw [e]
  rw [List.reverse_append]
  rfl

theorem diffRegexFind_of_trim (s od nw : Str) (hno : noNewline od = true)
    (hnn : noNewline nw = true)
    (ht : trimWs s = "[-".data ++ od ++ "-]\x7b+".data ++ nw ++ "+\x7d".data) :
    (diffRegexFind s).isSome = true := by
  obtain ⟨a, b, hs, ha, hb⟩ := trim_decomp s
  rw [ht] at hs
  rw [hs]
  have e : a ++ ("[-".data ++ od ++ "-]\x7b+".data ++ nw ++ "+\x7d".data) ++ b
      = a ++ ('[' :: '-' :: (od ++ '-' :: ']' :: '\x7b' :: '+' :: (nw ++ '+' :: '\x7d' :: b))) := by
    simp only [List.append_assoc]
    rfl
  rw [e]
  have hdrop : (a ++ ('[' :: '-' ::
        (od ++ '-' :: ']' :: '\x7b' :: '+' :: (nw ++ '+' :: '\x7d' :: b)))).dropWhile isWsChar
      = '[' :: '-' :: (od ++ '-' :: ']' :: '\x7b' :: '+' :: (nw ++ '+' :: '\x7d' :: b)) := by
    rw [dropWhile_append_all isWsChar a _ ha]
    simp [List.dropWhile_cons, isWsChar_lbracket]
  simp only [diffRegexFind, hdrop]
  exact matchOld_exists od nw b hno hnn hb

theorem unwrap_delete (t : Str) : unwrapWrapped ('[' :: '-' :: (t ++ ['-', ']'])) = t := by
  unfold unwrapWrapped
  have e2 : ('[' :: '-' :: (t ++ ['-', ']'])).length - 4 = t.length := by
    simp [List.length_append]
  rw [show ('[' :: '-' :: (t ++ ['-', ']'])).drop 2 = t ++ ['-', ']'] from rfl, e2,
    List.take_left]

theorem unwrap_insert (t : Str) : unwrapWrapped ('\x7b' :: '+' :: (t ++ ['+', '\x7d'])) = t := by
  unfold unwrapWrapped
  have e2 : ('\x7b' :: '+' :: (t ++ ['+', '\x7d'])).length - 4 = t.length := by
    simp [List.length_append]
  rw [show ('\x7b' :: '+' :: (t ++ ['+', '\x7d'])).drop 2 = t ++ ['+', '\x7d'] from rfl, e2,
    List.take_left]

theorem formatText_eq_flatten (ds : List Diff) :
    formatDiffsToText ds = (ds.map renderMarkerSeg).flatten := by
  induction ds with
  | nil => rfl
  | cons d rest ih =>
    obtain ⟨op, text⟩ := d
    cases op <;> simp [formatDiffsToText, renderMarkerSeg, ih]

theorem markerExtractOld_eq (ds : List Diff) : markerExtractOld ds = oldOfScript ds := by
  induction ds with
  | nil => rfl
  | cons d rest ih =>
    obtain ⟨op, text⟩ := d
    cases op <;> simp [markerExtractOld, oldOfScript, renderMarkerSeg, unwrap_delete, ih]

theorem markerExtractNew_eq (ds : List Diff) : markerExtractNew ds = newOfScript ds := by
  induction ds with
  | nil => rfl
  | cons d rest ih =>
    obtain ⟨op, text⟩ := d
    cases op <;> simp [markerExtractNew, newOfScript, renderMarkerSeg, unwrap_insert, ih]

theorem formatHTML_eq_flatten (ds : List Diff) :
    formatDiffsToHTML ds = (ds.map markupSegSpec).flatten := by
  induction ds with
  | nil => rfl
  | cons d rest ih =>
    obtain ⟨op, text⟩ := d
    cases op <;> simp [formatDiffsToHTML, markupSegSpec, ih]

theorem csvWrite_ok (w : CsvW) (r : List Str) :
    csvWrite okSink w r = (⟨w.idx + 1, w.rows ++ [r]⟩, true) := rfl

theorem htmlWrite_ok (w : HtmlW) (s : Str) :
    htmlWrite okSink w s = (⟨w.idx + 1, w.out ++ [s]⟩, true) := rfl

theorem cap_step (limit lc n : Nat) (h : ¬(0 < limit ∧ limit ≤ lc)) :
    (lc + 1) + (if 0 < limit then min (limit - (lc + 1)) n else n)
      = lc + (if 0 < limit then min (limit - lc) (n + 1) else n + 1) := by
  by_cases hl : 0 < limit
  · simp only [hl, if_true]
    omega
  · simp only [hl, if_false]
    omega

theorem cap_stop (limit lc n : Nat) (h : 0 < limit ∧ limit ≤ lc) :
    lc = lc + (if 0 < limit then min (limit - lc) n else n) := by
  simp only [h.1, if_true]
  omega

theorem csvFullLoop_count (engine : DiffEngine) (limit : Nat) :
    ∀ (records : List (List Str)) (lc : Nat) (w : CsvW),
    (csvFullLoop engine okSink limit records false lc w).2.1
      = lc + (if 0 < limit then min (limit - lc) records.length else records.length) := by
  intro records
  induction records with
  | nil =>
    intro lc w
    rw [csvFullLoop]
    by_cases h : 0 < limit ∧ limit ≤ lc
    · rw [if_pos h]; exact cap_stop limit lc 0 h
    · rw [if_neg h]
      simp only [List.length_nil, cond_false]
      by_cases hl : 0 < limit <;> simp [hl]
  | cons r rest ih =>
    intro lc w
    rw [csvFullLoop]
    by_cases h : 0 < limit ∧ limit ≤ lc
    · rw [if_pos h]; exact cap_stop limit lc _ h
    · rw [if_neg h]
      simp only [csvWrite_ok, cond_true, List.length_cons]
      rw [ih (lc + 1)]
      exact cap_step limit lc rest.length h

theorem csvListRow_ok (engine : DiffEngine) (headers : Option (List Str)) (lineCount : Nat) :
    ∀ (cells : List Str) (colNum : Nat) (w : CsvW),
    (csvListRow engine okSink headers lineCount cells colNum w).2 = none := by
  intro cells
  induction cells with
  | nil => intro colNum w; rfl
  | cons cell rest ih =>
    intro colNum w
    rw [csvListRow]
    cases hp : parseDiffCell engine cell with
    | some diffs =>
      simp only [csvWrite_ok, cond_true]
      exact ih (colNum + 1) _
    | none => exact ih (colNum + 1) w

theorem csvListLoop_count (engine : DiffEngine) (limit : Nat) (headers : Option (List Str)) :
    ∀ (records : List (List Str)) (lc : Nat) (w : CsvW),
    (csvListLoop engine okSink limit headers records false lc w).2.1
      = lc + (if 0 < limit then min (limit - lc) records.length else records.length) := by
  intro records
  induction records with
  | nil =>
    intro lc w
    rw [csvListLoop]
    by_cases h : 0 < limit ∧ limit ≤ lc
    · rw [if_pos h]; exact cap_stop limit lc 0 h
    · rw [if_neg h]
      simp only [List.length_nil, cond_false]
      by_cases hl : 0 < limit <;> simp [hl]
  | cons r rest ih =>
    intro lc w
    rw [csvListLoop]
    by_cases h : 0 < limit ∧ limit ≤ lc
    · rw [if_pos h]; exact cap_stop limit lc _ h
    · rw [if_neg h]
      simp only [csvListRow_ok, List.length_cons]
      rw [ih (lc + 1)]
      exact cap_step limit lc rest.length h

theorem htmlListLoop_count (engine : DiffEngine) (limit : Nat) (headers : Option (List Str)) :
    ∀ (records : List (List Str)) (lc df : Nat) (w : HtmlW),
    (htmlListLoop engine okSink limit headers records false lc df w).2.1
      = lc + (if 0 < limit then min (limit - lc) records.length else records.length) := by
  intro records
  induction records with
  | nil =>
    intro lc df w
    rw [htmlListLoop]
    by_cases h : 0 < limit ∧ limit ≤ lc
    · rw [if_pos h]; exact cap_stop limit lc 0 h
    · rw [if_neg h]
      simp only [List.length_nil, cond_false]
      by_cases hl : 0 < limit <;> simp [hl]
  | cons r rest ih =>
    intro lc df w
    rw [htmlListLoop]
    by_cases h : 0 < limit ∧ limit ≤ lc
    · rw [if_pos h]; exact cap_stop limit lc _ h
    · rw [if_neg h]
      simp only [List.length_cons]
      rw [ih (lc + 1)]
      exact cap_step limit lc rest.length h

theorem htmlTableLoop_count (engine : DiffEngine) (limit : Nat) :
    ∀ (records : List (List Str)) (lc : Nat) (w : HtmlW),
    (htmlTableLoop engine okSink limit records false lc w).2.1
      = lc + (if 0 < limit then min (limit - lc) records.length else records.length) := by
  intro records
  induction records with
  | nil =>
    intro lc w
    rw [htmlTableLoop]
    by_cases h : 0 < limit ∧ limit ≤ lc
    · rw [if_pos h]; exact cap_stop limit lc 0 h
    · rw [if_neg h]
      simp only [List.length_nil, cond_false]
      by_cases hl : 0 < limit <;> simp [hl]
  | cons r rest ih =>
    intro lc w
    rw [htmlTableLoop]
    by_cases h : 0 < limit ∧ limit ≤ lc
    · rw [if_pos h]; exact cap_stop limit lc _ h
    · rw [if_neg h]
      simp only [List.length_cons]
      rw [ih (lc + 1)]
      exact cap_step limit lc rest.length h

theorem processCSVAsFull_count (engine : DiffEngine) (limit : Nat)
    (headers : Option (List Str)) (records : List (List Str)) :
    (processCSVAsFull engine okSink limit headers records false).2.1
      = capCount limit records.length := by
  have h := csvFullLoop_count engine limit records 0
  cases headers with
  | none =>
    simp only [processCSVAsFull]
    rw [h ⟨0, []⟩]
    simp [capCount]
  | some hs =>
    simp only [processCSVAsFull, csvWrite_ok, cond_true]
    rw [h _]
    simp [capCount]

theorem processCSVAsList_count (engine : DiffEngine) (limit : Nat)
    (headers : Option (List Str)) (records : List (List Str)) :
    (processCSVAsList engine okSink limit headers records false).2.1
      = capCount limit records.length := by
  simp only [processCSVAsList, csvWrite_ok, cond_true]
  rw [csvListLoop_count engine limit headers records 0 _]
  simp [capCount]

theorem processHTMLAsList_count (engine : DiffEngine) (fontFamily : Str) (limit : Nat)
    (headers : Option (List Str)) (records : List (List Str)) :
    (processHTMLAsList engine okSink fontFamily limit headers records false).2.1
      = capCount limit records.length := by
  simp only [processHTMLAsList]
  rcases hl : htmlListLoop engine okSink limit headers records false 0 0
      (writeHTMLHeaderList okSink ⟨0, []⟩ fontFamily) with ⟨w2, lc2, df2, er⟩
  have hc := htmlListLoop_count engine limit headers records 0 0
      (writeHTMLHeaderList okSink ⟨0, []⟩ fontFamily)
  rw [hl] at hc
  simp only at hc
  cases er with
  | some e =>
    simp only
    rw [hc]
    simp [capCount]
  | none =>
    by_cases hdf : df2 = 0 <;> simp only [hdf, if_true, if_false] <;>
      simp [hc, capCount, hdf]
  
theorem processHTMLAsTable_count (engine : DiffEngine) (fontFamily : Str) (limit : Nat)
    (headers : Option (List Str)) (records : List (List Str)) :
    (processHTMLAsTable engine okSink fontFamily limit headers records false).2.1
      = capCount limit records.length := by
  simp only [processHTMLAsTable]
  rcases hl : htmlTableLoop engine okSink limit records false 0
      ((htmlWrite okSink (writeHTMLHeaderTable okSink ⟨0, []⟩ fontFamily headers)
        "<tbody>\n".data).1) with ⟨w2, lc2, er⟩
  have hc := htmlTableLoop_count engine limit records 0
      ((htmlWrite okSink (writeHTMLHeaderTable okSink ⟨0, []⟩ fontFamily headers)
        "<tbody>\n".data).1)
  rw [hl] at hc
  simp only at hc
  cases er with
  | some e =>
    simp only
    rw [hc]
    simp [capCount]
  | none =>
    simp only
    rw [hc]
    simp [capCount]

/-- C3: with a positive line cap N exactly `min N totalRecords` records
are read and processed in every one of the four modes, and with N = 0
all records are; the cap is checked before each read, so the number of
records consumed from the input never exceeds the cap. -/
theorem c3_line_cap_counts (engine : DiffEngine) (limit : Nat) (headers : Option (List Str))
    (fontFamily : Str) (records : List (List Str)) :
    (processCSVAsFull engine okSink limit headers records false).2.1
        = capCount limit records.length
    ∧ (processCSVAsList engine okSink limit headers records false).2.1
        = capCount limit records.length
    ∧ (processHTMLAsList engine okSink fontFamily limit headers records false).2.1
        = capCount limit records.length
    ∧ (processHTMLAsTable engine okSink fontFamily limit headers records false).2.1
        = capCount limit records.length :=
  ⟨processCSVAsFull_count engine limit headers records,
   processCSVAsList_count engine limit headers records,
   processHTMLAsList_count engine fontFamily limit headers records,
   processHTMLAsTable_count engine fontFamily limit headers records⟩

theorem writeHTMLDiffLine_ok (w : HtmlW) (line col : Nat) (htmlDiff : Str)
    (headers : Option (List Str)) :
    (writeHTMLDiffLine okSink w line col htmlDiff headers).out
      = w.out ++ ["<div class=\x27diff-line\x27>\n".data,
          locLine line (htmlColDesc headers col), valLine htmlDiff, "</div>\n".data] := by
  simp [writeHTMLDiffLine, htmlWrite_ok, List.append_assoc]

theorem locLine_ne_notice (line : Nat) (colStr : Str) : locLine line colStr ≠ noticeStr := by
  intro h
  have h2 : (locLine line colStr).head? = noticeStr.head? := by rw [h]
  rw [show (locLine line colStr).head? = some ' ' from rfl] at h2
  exact absurd h2 (by decide)

theorem valLine_ne_notice (htmlDiff : Str) : valLine htmlDiff ≠ noticeStr := by
  intro h
  have h2 : (valLine htmlDiff).head? = noticeStr.head? := by rw [h]
  rw [show (valLine htmlDiff).head? = some ' ' from rfl] at h2
  exact absurd h2 (by decide)

theorem bodyFontLine_ne_notice (safe : Str) : bodyFontLine safe ≠ noticeStr := by
  intro h
  have h2 : (bodyFontLine safe).head? = noticeStr.head? := by rw [h]
  rw [show (bodyFontLine safe).head? = some ' ' from rfl] at h2
  exact absurd h2 (by decide)

theorem htmlListRow_spec (engine : DiffEngine) (headers : Option (List Str)) (lineNum : Nat) :
    ∀ (cells : List Str) (colNum : Nat) (w : HtmlW) (df : Nat),
    ∃ E, (htmlListRow engine okSink headers lineNum cells colNum w df).1.out = w.out ++ E
    ∧ df ≤ (htmlListRow engine okSink headers lineNum cells colNum w df).2
    ∧ ((htmlListRow engine okSink headers lineNum cells colNum w df).2 = df ↔ E = [])
    ∧ (∀ s ∈ E, s ≠ noticeStr) := by
  intro cells
  induction cells with
  | nil =>
    intro colNum w df
    exact ⟨[], by simp [htmlListRow], Nat.le_refl df, by simp [htmlListRow], by simp⟩
  | cons cell rest ih =>
    intro colNum w df
    rw [htmlListRow]
    cases hp : parseDiffCell engine cell with
    | none => exact ih (colNum + 1) w df
    | some diffs =>
      simp only
      obtain ⟨E, hout, hle, hiff, hmem⟩ := ih (colNum + 1)
        (writeHTMLDiffLine okSink w lineNum (colNum + 1) (formatDiffsToHTML diffs) headers)
        (df + 1)
      refine ⟨["<div class=\x27diff-line\x27>\n".data,
          locLine lineNum (htmlColDesc headers (colNum + 1)),
          valLine (formatDiffsToHTML diffs), "</div>\n".data] ++ E, ?_, ?_, ?_, ?_⟩
      · rw [hout, writeHTMLDiffLine_ok]
        simp [List.append_assoc]
      · exact Nat.le_trans (Nat.le_succ df) hle
      · constructor
        · intro h
          exfalso
          rw [h] at hle
          omega
        · intro h
          exact absurd h (by simp)
      · intro s hs
        simp only [List.cons_append, List.nil_append, List.mem_cons] at hs
        rcases hs with h | h | h | h | h
        · rw [h]; decide
        · rw [h]; exact locLine_ne_notice lineNum _
        · rw [h]; exact valLine_ne_notice _
        · rw [h]; decide
        · exact hmem s h

theorem htmlListLoop_spec (engine : DiffEngine) (limit : Nat) (headers : Option (List Str)) :
    ∀ (records : List (List Str)) (lc df : Nat) (w : HtmlW),
    ∃ E, (htmlListLoop engine okSink limit headers records false lc df w).1.out = w.out ++ E
    ∧ df ≤ (htmlListLoop engine okSink limit headers records false lc df w).2.2.1
    ∧ ((htmlListLoop engine okSink limit headers records false lc df w).2.2.1 = df ↔ E = [])
    ∧ (∀ s ∈ E, s ≠ noticeStr)
    ∧ (htmlListLoop engine okSink limit headers records false lc df w).2.2.2 = none := by
  intro records
  induction records with
  | nil =>
    intro lc df w
    rw [htmlListLoop]
    by_cases h : 0 < limit ∧ limit ≤ lc
    · rw [if_pos h]
      exact ⟨[], by simp, Nat.le_refl df, by simp, by simp, rfl⟩
    · rw [if_neg h]
      exact ⟨[], by simp, Nat.le_refl df, by simp, by simp, rfl⟩
  | cons r rest ih =>
    intro lc df w
    rw [htmlListLoop]
    by_cases h : 0 < limit ∧ limit ≤ lc
    · rw [if_pos h]
      exact ⟨[], by simp, Nat.le_refl df, by simp, by simp, rfl⟩
    · rw [if_neg h]
      simp only
      obtain ⟨E1, hout1, hle1, hiff1, hmem1⟩ := htmlListRow_spec engine headers (lc + 1) r 0 w df
      obtain ⟨E2, hout2, hle2, hiff2, hmem2, herr2⟩ := ih (lc + 1)
        (htmlListRow engine okSink headers (lc + 1) r 0 w df).2
        (htmlListRow engine okSink headers (lc + 1) r 0 w df).1
      refine ⟨E1 ++ E2, ?_, ?_, ?_, ?_, herr2⟩
      · rw [hout2, hout1, List.append_assoc]
      · exact Nat.le_trans hle1 hle2
      · constructor
        · intro heq
          have hr : (htmlListRow engine okSink headers (lc + 1) r 0 w df).2 = df := by
            have := hle1
            have := hle2
            omega
          have h1 : E1 = [] := hiff1.mp hr
          have h2 : E2 = [] := hiff2.mp (by rw [heq, hr])
          rw [h1, h2]
          rfl
        · intro heq
          obtain ⟨h1, h2⟩ := List.append_eq_nil.mp heq
          exact (hiff2.mpr h2).trans (hiff1.mpr h1)
      · intro s hs
        rcases List.mem_append.mp hs with h | h
        · exact hmem1 s h
        · exact hmem2 s h

theorem writeHTMLHeaderList_ok (fontFamily : Str) :
    writeHTMLHeaderList okSink ⟨0, []⟩ fontFamily
      = ⟨3, [htmlListPre, bodyFontLine (stripAngles fontFamily), htmlListCss]⟩ := rfl

/-- C9: in HTML list mode the `no differences found` notice is written
immediately before the closing tags if and only if zero diff entries
were emitted over the entire run; with at least one entry the notice
appears nowhere in the output. -/
theorem c9_html_list_notice_iff (engine : DiffEngine) (fontFamily : Str) (limit : Nat)
    (headers : Option (List Str)) (records : List (List Str)) :
    ((processHTMLAsList engine okSink fontFamily limit headers records false).2.2.1 = 0 →
      (processHTMLAsList engine okSink fontFamily limit headers records false).1.out
        = [htmlListPre, bodyFontLine (stripAngles fontFamily), htmlListCss,
            noticeStr, footerListStr])
    ∧ ((processHTMLAsList engine okSink fontFamily limit headers records false).2.2.1 ≠ 0 →
      noticeStr ∉ (processHTMLAsList engine okSink fontFamily limit headers records false).1.out
      ∧ ∃ E, E ≠ []
        ∧ (processHTMLAsList engine okSink fontFamily limit headers records false).1.out
          = [htmlListPre, bodyFontLine (stripAngles fontFamily), htmlListCss]
              ++ E ++ [footerListStr]) := by
  obtain ⟨E, hout, hle, hiff, hmem, herr⟩ := htmlListLoop_spec engine limit headers records 0 0
      (writeHTMLHeaderList okSink ⟨0, []⟩ fontFamily)
  rcases hl : htmlListLoop engine okSink limit headers records false 0 0
      (writeHTMLHeaderList okSink ⟨0, []⟩ fontFamily) with ⟨w2, lc2, df2, er⟩
  rw [hl] at hout hle hiff herr
  simp only at hout hle hiff herr
  subst herr
  have hout2 : (processHTMLAsList engine okSink fontFamily limit headers records false).1.out
      = if df2 = 0 then w2.out ++ [noticeStr, footerListStr] else w2.out ++ [footerListStr] := by
    simp only [processHTMLAsList]
    rw [hl]
    by_cases hdf : df2 = 0
    · simp [hdf, htmlWrite_ok, writeHTMLFooterList, List.append_assoc]
    · simp [hdf, htmlWrite_ok, writeHTMLFooterList]
  have hdf2 : (processHTMLAsList engine okSink fontFamily limit headers records false).2.2.1
      = df2 := by
    simp only [processHTMLAsList]
    rw [hl]
    by_cases hdf : df2 = 0 <;> simp [hdf, htmlWrite_ok, writeHTMLFooterList]
  have hwout : w2.out = [htmlListPre, bodyFontLine (stripAngles fontFamily), htmlListCss] ++ E := by
    rw [hout, writeHTMLHeaderList_ok]
  constructor
  · intro h0
    rw [hdf2] at h0
    have hE : E = [] := hiff.mp h0
    rw [hout2, if_pos h0, hwout, hE]
    rfl
  · intro hne
    rw [hdf2] at hne
    have hEne : E ≠ [] := fun hE => hne (hiff.mpr hE)
    constructor
    · rw [hout2, if_neg hne, hwout]
      intro hin
      rcases List.mem_append.mp hin with h | h
      · rcases List.mem_append.mp h with h2 | h2
        · simp only [List.mem_cons, List.not_mem_nil, or_false] at h2
          rcases h2 with h3 | h3 | h3
          · exact absurd h3 (by decide)
          · exact absurd h3.symm (bodyFontLine_ne_notice _)
          · exact absurd h3 (by decide)
        · exact hmem noticeStr h2 rfl
      · simp only [List.mem_singleton] at h
        exact absurd h (by decide)
    · exact ⟨E, hEne, by rw [hout2, if_neg hne, hwout]⟩

/-- C1 (the code refutes the claim; the own test of the repository,
`TestIOErrors/WriteError_HTMLList_Header` expects the write error to
propagate): in HTML list mode, against a sink on which every write
fails and an input row containing a diff marker, the run attempts
eight writes (preamble, entry, footer), none succeeds, and still
returns no error — the write failures are swallowed, because the
preamble, per-entry and footer writes all discard their errors and the
error variable is only ever set by the unreached no-diff-notice path. -/
theorem c1_html_list_write_failure_swallowed (engine : DiffEngine) :
    processHTMLAsList engine failSink [] 0 none [["[-a-]\x7b+b+\x7d".data]] false
      = (⟨8, []⟩, 1, 1, none) := rfl

/-- C2 (amended: OLD and NEW must additionally contain no newline
character, because `.` in the Go pattern does not match a newline):
for OLD without `-]`, NEW without `+}`, both newline-free, the cell
`[-OLD-]{+NEW+}` is recognized with exactly those captures. -/
theorem c2_marker_grammar_captures (old new : Str)
    (h1 : containsSeq "-]".data old = false)
    (h2 : containsSeq "+\x7d".data new = false)
    (h3 : noNewline old = true) (h4 : noNewline new = true) :
    diffRegexFind ("[-".data ++ old ++ "-]\x7b+".data ++ new ++ "+\x7d".data)
      = some (old, new) := by
  have h := diffRegexFind_build [] [] old new rfl rfl h1 h3 h4
  simpa using h

theorem c2_marker_grammar_captures_witness :
    containsSeq "-]".data "a".data = false ∧ containsSeq "+\x7d".data "b".data = false
    ∧ noNewline "a".data = true ∧ noNewline "b".data = true
    ∧ diffRegexFind ("[-".data ++ "a".data ++ "-]\x7b+".data ++ "b".data ++ "+\x7d".data)
        = some ("a".data, "b".data) :=
  ⟨by decide, by decide, by decide, by decide,
   c2_marker_grammar_captures ("a".data) ("b".data) (by decide) (by decide) (by decide)
     (by decide)⟩

/-- C2 counterexample: OLD = a newline (which contains no `-]`) and
NEW = `x` (no `+}`) build a cell the grammar does not recognize at all,
because Go regexp `.` never matches a newline. -/
theorem c2_newline_counterexample :
    containsSeq "-]".data "\n".data = false
    ∧ containsSeq "+\x7d".data "x".data = false
    ∧ diffRegexFind ("[-".data ++ "\n".data ++ "-]\x7b+".data ++ "x".data ++ "+\x7d".data)
        ≠ some ("\n".data, "x".data) := by decide

/-- C4 (amended: the decomposed OLD and NEW are newline-free, because
`.` in the Go pattern does not match a newline): the grammar matches a
cell exactly when its whitespace-trimmed content is literally
`[-OLD-]{+NEW+}` for some newline-free OLD and NEW; a cell that only
contains a marker as a proper substring does not match and passes
through as ordinary non-diff text, never as an error. -/
theorem c4_full_anchor_iff (s : Str) :
    ((diffRegexFind s).isSome = true ↔
      ∃ old new, noNewline old = true ∧ noNewline new = true
        ∧ trimWs s = "[-".data ++ old ++ "-]\x7b+".data ++ new ++ "+\x7d".data)
    ∧ (∀ engine : DiffEngine, diffRegexFind s = none → transformCellText engine s = s) := by
  constructor
  · constructor
    · intro h
      obtain ⟨p, hp⟩ := Option.isSome_iff_exists.mp h
      obtain ⟨ht, hno, hnn⟩ := diffRegexFind_sound s p.1 p.2 (by rw [hp])
      exact ⟨p.1, p.2, hno, hnn, ht⟩
    · rintro ⟨old, new, hno, hnn, ht⟩
      exact diffRegexFind_of_trim s old new hno hnn ht
  · intro engine h
    simp [transformCellText, parseDiffCell, h]

theorem c4_full_anchor_iff_witness :
    diffRegexFind "x[-a-]\x7b+b+\x7d".data = none
    ∧ transformCellText engineSample "x[-a-]\x7b+b+\x7d".data = "x[-a-]\x7b+b+\x7d".data :=
  ⟨by decide, (c4_full_anchor_iff ("x[-a-]\x7b+b+\x7d".data)).2 engineSample (by decide)⟩

/-- C4 counterexample: for the cell `[-\n-]{+x+}` the trimmed content
does decompose as `[-OLD-]{+NEW+}` (OLD = newline, NEW = `x`), yet the
grammar does not match it, since `.` excludes newlines. -/
theorem c4_newline_counterexample :
    ¬(((diffRegexFind "[-\n-]\x7b+x+\x7d".data).isSome = true) ↔
      ∃ old new, trimWs "[-\n-]\x7b+x+\x7d".data
        = "[-".data ++ old ++ "-]\x7b+".data ++ new ++ "+\x7d".data) := by
  intro h
  have h2 := h.mpr ⟨"\n".data, "x".data, by decide⟩
  exact absurd h2 (by decide)

/-- C5: under the diff engine contract (equal-plus-delete texts
concatenate to `old`, equal-plus-insert texts to `new`), the marker
notation rendering is the segment-wise concatenation of `[- -]` / `{+ +}`
wrappings, and re-extracting OLD as the equal texts plus the
bracket-delimited deletion texts, and NEW as the equal texts plus the
brace-delimited insertion texts, recovers exactly `(old, new)`. -/
theorem c5_marker_notation_roundtrip (ds : List Diff) (old new : Str)
    (h1 : oldOfScript ds = old) (h2 : newOfScript ds = new) :
    formatDiffsToText ds = (ds.map renderMarkerSeg).flatten
    ∧ markerExtractOld ds = old ∧ markerExtractNew ds = new :=
  ⟨formatText_eq_flatten ds, (markerExtractOld_eq ds).trans h1,
   (markerExtractNew_eq ds).trans h2⟩

theorem c5_marker_notation_roundtrip_witness :
    formatDiffsToText [⟨DiffOp.equal, "a".data⟩, ⟨DiffOp.delete, "b".data⟩,
        ⟨DiffOp.insert, "c".data⟩]
      = ([⟨DiffOp.equal, "a".data⟩, ⟨DiffOp.delete, "b".data⟩,
          ⟨DiffOp.insert, "c".data⟩].map renderMarkerSeg).flatten
    ∧ markerExtractOld [⟨DiffOp.equal, "a".data⟩, ⟨DiffOp.delete, "b".data⟩,
        ⟨DiffOp.insert, "c".data⟩] = "ab".data
    ∧ markerExtractNew [⟨DiffOp.equal, "a".data⟩, ⟨DiffOp.delete, "b".data⟩,
        ⟨DiffOp.insert, "c".data⟩] = "ac".data :=
  c5_marker_notation_roundtrip
    [⟨DiffOp.equal, "a".data⟩, ⟨DiffOp.delete, "b".data⟩, ⟨DiffOp.insert, "c".data⟩]
    ("ab".data) ("ac".data) (by decide) (by decide)

/-- C6: the markup renderer is the segment-wise escape-then-wrap map in
script order — equal segments escaped and bare, deletions escaped then
wrapped in the deletion element, insertions escaped then wrapped in the
insertion element — and the escaping rewrites all five
markup-significant characters. -/
theorem c6_markup_renderer (ds : List Diff) :
    formatDiffsToHTML ds = (ds.map markupSegSpec).flatten
    ∧ escapeHTML ['&'] = "&amp;".data ∧ escapeHTML ['<'] = "&lt;".data
    ∧ escapeHTML ['>'] = "&gt;".data ∧ escapeHTML ['\x22'] = "&#34;".data
    ∧ escapeHTML ['\x27'] = "&#39;".data :=
  ⟨formatHTML_eq_flatten ds, by decide, by decide, by decide, by decide, by decide⟩

/-- C7: in full mode the output row has exactly as many columns as the
input record; a cell the grammar does not match passes through
unchanged in the CSV medium and exactly markup-escaped in the HTML
medium; a matched cell is replaced by the rendered edit script. -/
theorem c7_full_mode_frame (engine : DiffEngine) (record : List Str) :
    (record.map (transformCellText engine)).length = record.length
    ∧ (record.map (transformCellHTML engine)).length = record.length
    ∧ (∀ cell, diffRegexFind cell = none →
        transformCellText engine cell = cell
        ∧ transformCellHTML engine cell = escapeHTML cell)
    ∧ (∀ cell p, diffRegexFind cell = some p →
        transformCellText engine cell = formatDiffsToText (engine p.1 p.2)
        ∧ transformCellHTML engine cell = formatDiffsToHTML (engine p.1 p.2)) := by
  refine ⟨by simp, by simp, ?_, ?_⟩
  · intro cell h
    constructor <;> simp [transformCellText, transformCellHTML, parseDiffCell, h]
  · intro cell p h
    constructor <;> simp [transformCellText, transformCellHTML, parseDiffCell, h]

theorem c7_full_mode_frame_witness :
    transformCellText engineSample ("x".data) = "x".data
    ∧ transformCellText engineSample ("[-a-]\x7b+b+\x7d".data)
        = formatDiffsToText (engineSample "a".data "b".data) :=
  ⟨((c7_full_mode_frame engineSample []).2.2.1 ("x".data) (by decide)).1,
   ((c7_full_mode_frame engineSample []).2.2.2 ("[-a-]\x7b+b+\x7d".data)
     ("a".data, "b".data) (by decide)).1⟩

/-- C8: with a header mapping of length k, the column descriptor of a
matched cell at 0-based index i is the 1-based index annotated with the
header name exactly when i < k (the name markup-escaped in the HTML
medium), and the bare 1-based index when i ≥ k; a mapping shorter than
the record is never an error. -/
theorem c8_header_mapping_descriptors (hs : List Str) (i : Nat) :
    (i < hs.length →
      csvColDesc (some hs) i = natStr (i + 1) ++ ":".data ++ hs.getD i []
      ∧ htmlColDesc (some hs) (i + 1)
          = "Col ".data ++ natStr (i + 1) ++ ":".data ++ escapeHTML (hs.getD i []))
    ∧ (hs.length ≤ i →
      csvColDesc (some hs) i = natStr (i + 1)
      ∧ htmlColDesc (some hs) (i + 1) = "Col ".data ++ natStr (i + 1)) := by
  constructor
  · intro h
    constructor
    · simp [csvColDesc, h]
    · simp [htmlColDesc, h]
  · intro h
    constructor
    · simp [csvColDesc, Nat.not_lt.mpr h]
    · simp [htmlColDesc, Nat.not_lt.mpr h]

theorem c8_header_mapping_descriptors_witness :
    (1 < ["ID".data, "Item".data].length
      ∧ csvColDesc (some ["ID".data, "Item".data]) 1
          = natStr 2 ++ ":".data ++ ["ID".data, "Item".data].getD 1 [])
    ∧ (["ID".data, "Item".data].length ≤ 5
      ∧ csvColDesc (some ["ID".data, "Item".data]) 5 = natStr 6) :=
  ⟨⟨by decide, ((c8_header_mapping_descriptors ["ID".data, "Item".data] 1).1 (by decide)).1⟩,
   ⟨by decide, ((c8_header_mapping_descriptors ["ID".data, "Item".data] 5).2 (by decide)).1⟩⟩

theorem c9_html_list_notice_iff_witness :
    (processHTMLAsList engineSample okSink [] 0 none [] false).2.2.1 = 0
    ∧ (processHTMLAsList engineSample okSink [] 0 none [] false).1.out
        = [htmlListPre, bodyFontLine (stripAngles []), htmlListCss, noticeStr, footerListStr] :=
  ⟨rfl, (c9_html_list_notice_iff engineSample [] 0 none []).1 rfl⟩

/-- C10: a marker cell with surrounding whitespace renders, in both the
marker and the markup medium, exactly the edit script of the trimmed
OLD/NEW pair — identical to processing the trimmed cell — so the
surrounding whitespace never reaches the output. -/
theorem c10_whitespace_discarded (engine : DiffEngine) (ws1 ws2 old new : Str)
    (h1 : ws1.all isWsChar = true) (h2 : ws2.all isWsChar = true)
    (h3 : containsSeq "-]".data old = false)
    (h4 : noNewline old = true) (h5 : noNewline new = true) :
    transformCellText engine
        (ws1 ++ "[-".data ++ old ++ "-]\x7b+".data ++ new ++ "+\x7d".data ++ ws2)
      = formatDiffsToText (engine old new)
    ∧ transformCellHTML engine
        (ws1 ++ "[-".data ++ old ++ "-]\x7b+".data ++ new ++ "+\x7d".data ++ ws2)
      = formatDiffsToHTML (engine old new)
    ∧ transformCellText engine
        (ws1 ++ "[-".data ++ old ++ "-]\x7b+".data ++ new ++ "+\x7d".data ++ ws2)
      = transformCellText engine
        ("[-".data ++ old ++ "-]\x7b+".data ++ new ++ "+\x7d".data) := by
  have hm := diffRegexFind_build ws1 ws2 old new h1 h2 h3 h4 h5
  have hm0 := diffRegexFind_build [] [] old new rfl rfl h3 h4 h5
  simp only [List.append_assoc, List.cons_append, List.nil_append, List.append_nil]
    at hm hm0
  refine ⟨?_, ?_, ?_⟩ <;>
    simp [transformCellText, transformCellHTML, parseDiffCell, hm, hm0]

theorem c10_whitespace_discarded_witness :
    transformCellText engineSample (" ".data ++ "[-".data ++ "a".data ++ "-]\x7b+".data
        ++ "b".data ++ "+\x7d".data ++ "\t".data)
      = formatDiffsToText (engineSample "a".data "b".data) :=
  (c10_whitespace_discarded engineSample (" ".data) ("\t".data) ("a".data) ("b".data)
    (by decide) (by decide) (by decide) (by decide) (by decide)).1
